import Mathlib

set_option linter.unusedVariables false

/-! Verification of the BFIR (Binary Format Intermediate Representation)
converter pipeline. `BfirPipeline` embeds the IR builder
`convert_enhanced_fields_to_bfir` of `src/scripts/bfir_pipeline.py`;
`HexPat` models the BFIR → pattern-language converter
(`bfir/converters/hexpat/converter.py`, which is not among the staged
sources) from the specification's words. -/

namespace BfirPipeline

/-- One entry of `binary_structure.bit_fields` as read from the enhanced
field definitions JSON (src/scripts/bfir_pipeline.py, lines 89-95). Missing
keys are `none`. -/
structure BitFieldIn where
  name : Option String
  description : Option String
  bits : Option Nat
deriving DecidableEq

/-- One entry of `binary_structure.values` (src/scripts/bfir_pipeline.py,
lines 103-109). -/
structure EnumValueIn where
  name : Option String
  value : Option Int
  description : Option String
deriving DecidableEq

/-- One entry of `binary_structure.fields` (src/scripts/bfir_pipeline.py,
lines 116-123). -/
structure StructFieldIn where
  name : Option String
  size_bytes : Option Nat
  description : Option String
deriving DecidableEq

/-- The `binary_structure` sub-object of an enhanced field definition. -/
structure BinaryStructure where
  type : Option String
  size_bytes : Option Nat
  bit_fields : Option (List BitFieldIn)
  values : Option (List EnumValueIn)
  fields : Option (List StructFieldIn)
deriving DecidableEq

/-- `field.get('binary_structure', {})` for a field without the key. -/
def emptyBS : BinaryStructure :=
  { type := none, size_bytes := none, bit_fields := none, values := none, fields := none }

/-- One enhanced field definition, the input element type of
`convert_enhanced_fields_to_bfir`. -/
structure EnhancedField where
  field : Option String
  name : Option String
  offset : Option Int
  description : Option String
  binary_structure : Option BinaryStructure
deriving DecidableEq

/-- Output bit-field entry written by the `bitfield` branch. -/
structure BitFieldOut where
  name : String
  description : String
  bits : Nat
deriving DecidableEq

/-- Output enum value written by the `enum` branch. -/
structure EnumValueOut where
  name : String
  value : Int
  description : String
deriving DecidableEq

/-- Output child field written by the `struct` branch
(src/scripts/bfir_pipeline.py, lines 118-123). -/
structure StructFieldOut where
  name : String
  type : String
  size : Nat
  description : String
deriving DecidableEq

/-- One field of the returned BFIR document. Keys a branch does not write
are `none`. -/
structure BFIRField where
  name : String
  description : String
  offset : Option Int
  type : String
  size : Option Nat
  bit_fields : Option (List BitFieldOut)
  enum_values : Option (List EnumValueOut)
  fields : Option (List StructFieldOut)
deriving DecidableEq

/-- The `format` object of the returned BFIR document
(src/scripts/bfir_pipeline.py, lines 58-66). -/
structure FormatDescriptor where
  name : String
  version : String
  description : String
  endianness : String
deriving DecidableEq

/-- The BFIR document `convert_enhanced_fields_to_bfir` returns. -/
structure BFIRDoc where
  format : FormatDescriptor
  fields : List BFIRField
deriving DecidableEq

/-- `field.get('field') or field.get('name', 'Unknown')`
(src/scripts/bfir_pipeline.py, line 70): Python `or` falls through when the
left operand is `None` or the empty string, both falsy. -/
def fieldNameOf (f : EnhancedField) : String :=
  match f.field with
  | some s => if s = "" then f.name.getD "Unknown" else s
  | none => f.name.getD "Unknown"

/-- `binary_structure = field.get('binary_structure', {})`
(src/scripts/bfir_pipeline.py, line 73). -/
def bsOf (f : EnhancedField) : BinaryStructure := f.binary_structure.getD emptyBS

/-- The `bfir_field` dict before the type dispatch
(src/scripts/bfir_pipeline.py, lines 76-80): name, description and offset. -/
def baseOf (f : EnhancedField) : BFIRField :=
  { name := fieldNameOf f
    description := f.description.getD ""
    offset := f.offset
    type := ""
    size := none
    bit_fields := none
    enum_values := none
    fields := none }

/-- The struct-branch child conversion (src/scripts/bfir_pipeline.py,
lines 118-123). -/
def childOf (sf : StructFieldIn) : StructFieldOut :=
  { name := sf.name.getD "Unknown"
    type := "simple_value"
    size := sf.size_bytes.getD 1
    description := sf.description.getD "" }

/-- The per-field body of the loop of `convert_enhanced_fields_to_bfir`
(src/scripts/bfir_pipeline.py, lines 69-131): dispatch on
`binary_structure.get('type')`, with every unknown or missing type defaulting
to `simple_value` of size `binary_structure.get('size_bytes', 1)`. -/
def convertField (f : EnhancedField) : BFIRField :=
  match (bsOf f).type with
  | some "bitfield" =>
    { baseOf f with
      type := "bit_fields"
      bit_fields := some (((bsOf f).bit_fields.getD []).map fun b =>
        { name := b.name.getD "Unknown"
          description := b.description.getD ""
          bits := b.bits.getD 1 }) }
  | some "enum" =>
    { baseOf f with
      type := "enum"
      size := some ((bsOf f).size_bytes.getD 1)
      enum_values := some (((bsOf f).values.getD []).map fun v =>
        { name := v.name.getD "Unknown"
          value := v.value.getD 0
          description := v.description.getD "" }) }
  | some "struct" =>
    { baseOf f with
      type := "struct"
      fields := some (((bsOf f).fields.getD []).map childOf) }
  | _ => { baseOf f with type := "simple_value", size := some ((bsOf f).size_bytes.getD 1) }

/-- `convert_enhanced_fields_to_bfir` (src/scripts/bfir_pipeline.py,
lines 47-133): the fixed EDID format descriptor plus one converted field per
input element, in input order. -/
def convert_enhanced_fields_to_bfir (efs : List EnhancedField) : BFIRDoc :=
  { format :=
      { name := "EDID"
        version := "1.4"
        description := "Extended Display Identification Data"
        endianness := "little" }
    fields := efs.map convertField }

end BfirPipeline

namespace HexPat

/-- Modelled from the spec: §3, the `endianness` of a FormatDescriptor. -/
inductive Endianness where
  | big
  | little
deriving DecidableEq

/-- Modelled from the spec: §3 FormatDescriptor of the converter's input
document. -/
structure FormatDescriptor where
  name : String
  version : String
  description : String
  endianness : Endianness
deriving DecidableEq

/-- Modelled from the spec: §3 BitFieldEntry. -/
structure BitFieldEntry where
  name : String
  bits : Nat
  description : String
deriving DecidableEq

/-- Modelled from the spec: §3 EnumValue. -/
structure EnumValue where
  name : String
  value : Int
  description : String
deriving DecidableEq

/-- Modelled from the spec: §3 FieldNode, the tagged variant over
SimpleValue, Struct, BitFields and Enum (the BitFields container carries its
declared byte size, §4.2). -/
inductive FieldNode where
  | simpleValue (name : String) (sizeBytes : Nat) (description : String)
  | struct (name description : String) (fields : List FieldNode)
  | bitFields (name description : String) (sizeBytes : Nat) (bits : List BitFieldEntry)
  | enum (name : String) (sizeBytes : Nat) (values : List EnumValue)

/-- Modelled from the spec: §3/§6, the converter's input document. -/
structure Document where
  format : FormatDescriptor
  fields : List FieldNode

/-- Modelled from the spec: §7, the converter's error taxonomy. -/
inductive ConvError where
  | malformedField (name parentPath : String)
  | bitFieldOverflow (name : String)
  | unsupportedSize (sizeBytes : Int)
  | duplicateDeclaration (name : String)
deriving DecidableEq

/-- Modelled from the spec: §4.1, the target type names the Type Mapper
produces; `byteArray len` is the fixed-length byte array fallback of exactly
`len` elements. -/
inductive TypeName where
  | u8
  | u16
  | u32
  | u64
  | byteArray (len : Nat)
deriving DecidableEq

/-- Modelled from the spec: §4.1 `scalar_type_for` of the converter
(`bfir/converters/hexpat/converter.py`, not among the staged sources). Maps
1→u8, 2→u16, 4→u32, 8→u64; any other positive size falls back to a
fixed-length byte array of exactly `sizeBytes` elements; fails with
`UnsupportedSizeError` only when `sizeBytes ≤ 0`. -/
def scalar_type_for (sizeBytes : Int) : Except ConvError TypeName :=
  if sizeBytes ≤ 0 then .error (.unsupportedSize sizeBytes)
  else if sizeBytes = 1 then .ok .u8
  else if sizeBytes = 2 then .ok .u16
  else if sizeBytes = 4 then .ok .u32
  else if sizeBytes = 8 then .ok .u64
  else .ok (.byteArray sizeBytes.toNat)

/-- Rendering of a mapped type name in the emitted text. -/
def typeNameText : TypeName → String
  | .u8 => "u8"
  | .u16 => "u16"
  | .u32 => "u32"
  | .u64 => "u64"
  | .byteArray len => "u8 array[" ++ toString len ++ "]"

/-- The Library/Import Tracker's state: the required namespaces in first-seen
order. -/
abbrev TrackerState := List String

/-- Modelled from the spec: §4.4, `register(namespace)` appends a namespace
not seen yet; registering a namespace already present leaves the state
unchanged (idempotence). -/
def register (st : TrackerState) (ns : String) : TrackerState :=
  if ns ∈ st then st else st ++ [ns]

/-- Registration of a whole list of namespaces, left to right. -/
def registerAll (st : TrackerState) (nss : List String) : TrackerState :=
  nss.foldl register st

/-- The import statement for one namespace. -/
def importLine (ns : String) : String := "import " ++ ns ++ ";"

/-- Modelled from the spec: §4.4, `flush()` returns the ordered and
deduplicated import statements for the Assembler to prepend. -/
def flush (st : TrackerState) : List String := st.map importLine

/-- Modelled from the spec: §3 CallSpec — a namespaced library call observed
during emission. -/
structure CallSpec where
  ns : String
  fn : String
  args : List String
deriving DecidableEq

/-- Each dot of a dotted namespace path replaced by the target language's
`::` separator, character by character. -/
def dotToSep : List Char → List Char
  | [] => []
  | ch :: cs => if ch = '.' then ':' :: ':' :: dotToSep cs else ch :: dotToSep cs

/-- A dotted namespace path rendered with the target separator. -/
def renderNs (ns : String) : String := String.mk (dotToSep ns.data)

/-- Argument expressions joined with the argument separator. -/
def joinArgs : List String → String
  | [] => ""
  | [a] => a
  | a :: rest => a ++ ", " ++ joinArgs rest

/-- Modelled from the spec: §4.3, the function call generator
(`_generate_function_call`): renders
`<namespace-with-target-separator>::<function>(<args>)` and, as a side
effect, registers the namespace with the tracker — the only path through
which imports are discovered. -/
def generate_function_call (st : TrackerState) (c : CallSpec) : String × TrackerState :=
  (renderNs c.ns ++ "::" ++ c.fn ++ "(" ++ joinArgs c.args ++ ")",
    register st c.ns)

/-- Sequential emission of every call of a conversion through the call
generator, threading the tracker state. -/
def emitCalls (st : TrackerState) : List CallSpec → List String × TrackerState
  | [] => ([], st)
  | c :: cs =>
    let p := generate_function_call st c
    let q := emitCalls p.2 cs
    (p.1 :: q.1, q.2)

/-- The sum of the declared bit widths of a BitFields container's entries. -/
def totalBits (entries : List BitFieldEntry) : Nat :=
  (entries.map (fun e => e.bits)).sum

/-- Modelled from the spec: §4.2/§3, the emitted (name, width) bit entries of
a BitFields container: a padding entry is synthesized when the declared
widths fall short of `sizeBytes * 8`, and emission fails with
`BitFieldOverflowError` when they alone exceed that capacity. -/
def padBits (n : String) (sizeBytes : Nat) (entries : List BitFieldEntry) :
    Except ConvError (List (String × Nat)) :=
  if sizeBytes * 8 < totalBits entries then .error (.bitFieldOverflow n)
  else if totalBits entries < sizeBytes * 8 then
    .ok (entries.map (fun e => (e.name, e.bits)) ++
      [("padding", sizeBytes * 8 - totalBits entries)])
  else .ok (entries.map (fun e => (e.name, e.bits)))

/-- The composite type name a FieldNode declares, none for a SimpleValue. -/
def compositeName : FieldNode → Option String
  | .simpleValue _ _ _ => none
  | .struct n _ _ => some n
  | .bitFields n _ _ _ => some n
  | .enum n _ _ => some n

/-- Trailing annotation comment carrying a field's description (§4.2). -/
def commentFor (d : String) : String := if d = "" then "" else " // " ++ d

/-- Modelled from the spec: §4.2, the one-line declaration of a field at its
parent's position; a SimpleValue goes through the Type Mapper, a composite
variant is referenced by its type name. -/
def fieldDeclLine : FieldNode → Except ConvError String
  | .simpleValue n sb d =>
    match scalar_type_for (sb : Int) with
    | .error e => .error e
    | .ok t => .ok (typeNameText t ++ " " ++ n ++ ";" ++ commentFor d)
  | .struct n _ _ => .ok (n ++ " " ++ n ++ "_field;")
  | .bitFields n _ _ _ => .ok (n ++ " " ++ n ++ "_field;")
  | .enum n _ _ => .ok (n ++ " " ++ n ++ "_field;")

/-- Fallible emission of each element of a list, in order. -/
def emitEach (g : α → Except ConvError β) : List α → Except ConvError (List β)
  | [] => .ok []
  | a :: rest =>
    match g a with
    | .error e => .error e
    | .ok b =>
      match emitEach g rest with
      | .error e => .error e
      | .ok bs => .ok (b :: bs)

/-- One emitted composite type declaration: its type name, the composite type
names its lines reference, and its text lines. -/
structure Decl where
  name : String
  refs : List String
  lines : List String
deriving DecidableEq

/-- One level of indentation for lines nested in a block. -/
def indentLine (s : String) : String := "  " ++ s

/-- Modelled from the spec: §4.2, a Struct's composite type declaration — the
recursively emitted one-line declarations of its children inside a named
block. -/
def structDeclLines (n : String) (fields : List FieldNode) :
    Except ConvError (List String) :=
  match emitEach fieldDeclLine fields with
  | .error e => .error e
  | .ok ls => .ok (("struct " ++ n ++ " \x7b") :: ls.map indentLine ++ ["\x7d;"])

/-- Modelled from the spec: §4.2, a BitFields composite declaration — one
line per (possibly padded) bit entry with its explicit width. -/
def bitfieldDeclLines (n : String) (sizeBytes : Nat) (entries : List BitFieldEntry) :
    Except ConvError (List String) :=
  match padBits n sizeBytes entries with
  | .error e => .error e
  | .ok ws => .ok (("bitfield " ++ n ++ " \x7b") ::
      ws.map (fun p => indentLine (p.1 ++ " : " ++ toString p.2 ++ ";")) ++ ["\x7d;"])

/-- Modelled from the spec: §4.2, an Enum declaration keyed by
`scalar_type_for(size_bytes)` with one named constant per value. -/
def enumDeclLines (n : String) (sizeBytes : Nat) (values : List EnumValue) :
    Except ConvError (List String) :=
  match scalar_type_for (sizeBytes : Int) with
  | .error e => .error e
  | .ok t => .ok (("enum " ++ n ++ " : " ++ typeNameText t ++ " \x7b") ::
      values.map (fun v => indentLine (v.name ++ " = " ++ toString v.value ++ ",")) ++ ["\x7d;"])

/-- Modelled from the spec: §4.2/§4.5, the composite type declarations
collected while walking a field list: a struct's children's declarations are
emitted before the declaration of the struct that references them
(declare-before-use, dependency order). -/
def typeDeclsList : List FieldNode → Except ConvError (List Decl)
  | [] => .ok []
  | .simpleValue _ _ _ :: fs => typeDeclsList fs
  | .struct n _ gs :: fs =>
    match typeDeclsList gs with
    | .error e => .error e
    | .ok sub =>
      match structDeclLines n gs with
      | .error e => .error e
      | .ok own =>
        match typeDeclsList fs with
        | .error e => .error e
        | .ok rest => .ok (sub ++ ⟨n, gs.filterMap compositeName, own⟩ :: rest)
  | .bitFields n _ sb es :: fs =>
    match bitfieldDeclLines n sb es with
    | .error e => .error e
    | .ok own =>
      match typeDeclsList fs with
      | .error e => .error e
      | .ok rest => .ok (⟨n, [], own⟩ :: rest)
  | .enum n sb vs :: fs =>
    match enumDeclLines n sb vs with
    | .error e => .error e
    | .ok own =>
      match typeDeclsList fs with
      | .error e => .error e
      | .ok rest => .ok (⟨n, [], own⟩ :: rest)

mutual
/-- Modelled from the spec: §4.2, the number of contiguous bytes one
FieldNode occupies in its parent (offsets are implicit positional). -/
def byteSize : FieldNode → Nat
  | .simpleValue _ sb _ => sb
  | .struct _ _ fs => byteSizeList fs
  | .bitFields _ _ sb _ => sb
  | .enum _ sb _ => sb

/-- The bytes a whole field list occupies, laid out sequentially. -/
def byteSizeList : List FieldNode → Nat
  | [] => 0
  | f :: fs => byteSize f + byteSizeList fs
end

/-- Modelled from the spec: §4.2/§8, the byte offset implied for each sibling
field by sequential emission order, starting at `off`. -/
def layoutOffsets (off : Nat) : List FieldNode → List Nat
  | [] => []
  | f :: fs => off :: layoutOffsets (off + byteSize f) fs

/-- True when a FieldNode is a SimpleValue. -/
def isSimple : FieldNode → Bool
  | .simpleValue _ _ _ => true
  | _ => false

/-- Modelled from the spec: §4.5, the endianness pragma line. -/
def pragmaLine : Endianness → String
  | .big => "#pragma endian big"
  | .little => "#pragma endian little"

/-- Hexadecimal digits of a number, most significant first. -/
def hexDigits (n : Nat) : String := String.mk (Nat.toDigits 16 n)

/-- A file offset rendered with at least two hexadecimal digits, so offset
zero reads `00`. -/
def offsetHex (n : Nat) : String :=
  let s := hexDigits n
  if s.length < 2 then "0" ++ s else s

/-- Modelled from the spec: §4.5, the single instantiation statement placing
the root struct at a file offset, `0x00` unless a non-zero root offset is
supplied. -/
def rootInstantiation (rootName : String) (off : Nat) : String :=
  rootName ++ " root @ 0x" ++ offsetHex off ++ ";"

/-- The root struct declaration block: its field lines followed by the lines
of the calls emitted during the conversion. -/
def rootStructLines (rootName : String) (fieldLines callLines : List String) : List String :=
  ("struct " ++ rootName ++ " \x7b") :: (fieldLines ++ callLines).map indentLine ++ ["\x7d;"]

/-- The concatenated text lines of a declaration list. -/
def linesOf : List Decl → List String
  | [] => []
  | d :: ds => d.lines ++ linesOf ds

/-- Dependency order relative to the names in `declared`: every composite
type name a declaration references was declared either in `declared` or by
an earlier declaration of the list. -/
def topoFrom (declared : List String) : List Decl → Bool
  | [] => true
  | d :: ds => d.refs.all (fun r => declared.contains r) && topoFrom (declared ++ [d.name]) ds

/-- Dependency order of a declaration list on its own: no declaration
references a composite type name that is not declared earlier in the list. -/
def topoOk (ds : List Decl) : Bool := topoFrom [] ds

/-- Modelled from the spec: §4.5 Document Assembler `convert()` — the pragma
line, then the flushed import lines, then the composite type declarations in
dependency order, then the root struct declaration, and finally the single
root instantiation. The tracker state `st` is carried over from earlier
conversions and returned alongside the text, reflecting §9: the source keeps
module-level tracker state reused across calls rather than a fresh tracker
per invocation. -/
def convert (st : TrackerState) (doc : Document) (calls : List CallSpec)
    (rootOffset : Nat) : Except ConvError (List String × TrackerState) :=
  match typeDeclsList doc.fields with
  | .error e => .error e
  | .ok decls =>
    match emitEach fieldDeclLine doc.fields with
    | .error e => .error e
    | .ok fieldLines =>
      .ok (pragmaLine doc.format.endianness ::
          (flush (emitCalls st calls).2 ++ linesOf decls ++
            rootStructLines doc.format.name fieldLines (emitCalls st calls).1 ++
            [rootInstantiation doc.format.name rootOffset]),
        (emitCalls st calls).2)

end HexPat

namespace Samples

/-- An enhanced field whose binary structure declares a struct with an empty
fields list — a malformed FieldNode per the spec (§7). -/
def emptyStructField : BfirPipeline.EnhancedField :=
  { field := none, name := some "Chromaticity", offset := none, description := none,
    binary_structure := some
      { type := some "struct", size_bytes := none, bit_fields := none,
        values := none, fields := some [] } }

/-- An enhanced field with an unknown binary-structure type. -/
def unknownTypeField : BfirPipeline.EnhancedField :=
  { field := none, name := some "Mystery", offset := none, description := none,
    binary_structure := some
      { type := some "waveform", size_bytes := none, bit_fields := none,
        values := none, fields := none } }

/-- A struct-typed enhanced field with one child that declares no size. -/
def headerField : BfirPipeline.EnhancedField :=
  { field := none, name := some "Header", offset := none, description := none,
    binary_structure := some
      { type := some "struct", size_bytes := none, bit_fields := none,
        values := none,
        fields := some [{ name := some "Magic", size_bytes := none, description := none }] } }

/-- The two SimpleValue fields of end-to-end scenario A. -/
def scenarioFields : List HexPat.FieldNode :=
  [.simpleValue "Magic" 4 "m", .simpleValue "Values" 40 "v"]

/-- A document with one nested struct, exercising the assembler. -/
def docNested : HexPat.Document :=
  { format := { name := "Example", version := "1.0", description := "d", endianness := .little }
    fields := [.struct "Header" "" scenarioFields] }

/-- The assembled text of `docNested`: fresh tracker, no calls, offset 0. -/
def outNested : List String :=
  ["#pragma endian little", "struct Header \x7b", "  u32 Magic; // m",
    "  u8 array[40] Values; // v", "\x7d;", "struct Example \x7b",
    "  Header Header_field;", "\x7d;", "Example root @ 0x00;"]

/-- A document with no fields, named A. -/
def docA : HexPat.Document :=
  { format := { name := "A", version := "1.0", description := "", endianness := .little }
    fields := [] }

/-- A second document with no fields, named B, emitting no calls. -/
def docB : HexPat.Document :=
  { format := { name := "B", version := "1.0", description := "", endianness := .little }
    fields := [] }

/-- The `std.math` `pow` call of end-to-end scenario C. -/
def powCall : HexPat.CallSpec := { ns := "std.math", fn := "pow", args := ["value", "2"] }

/-- Output of converting `docA` with one pow call from a fresh tracker. -/
def outA : List String :=
  ["#pragma endian little", "import std.math;", "struct A \x7b",
    "  std::math::pow(value, 2)", "\x7d;", "A root @ 0x00;"]

/-- Output of converting `docB` with the tracker still holding std.math from
an earlier conversion. -/
def outBStale : List String :=
  ["#pragma endian little", "import std.math;", "struct B \x7b", "\x7d;", "B root @ 0x00;"]

/-- Output of converting `docB` from a fresh tracker. -/
def outBFresh : List String :=
  ["#pragma endian little", "struct B \x7b", "\x7d;", "B root @ 0x00;"]

end Samples

/-! Helper lemmas about the IR builder. -/

theorem BfirPipeline.convertField_name (f : BfirPipeline.EnhancedField) :
    (BfirPipeline.convertField f).name = BfirPipeline.fieldNameOf f := by
  unfold BfirPipeline.convertField
  split <;> rfl

theorem BfirPipeline.convertField_fields (f : BfirPipeline.EnhancedField)
    (cs : List BfirPipeline.StructFieldOut)
    (h : (BfirPipeline.convertField f).fields = some cs) :
    cs = ((BfirPipeline.bsOf f).fields.getD []).map BfirPipeline.childOf := by
  unfold BfirPipeline.convertField at h
  split at h <;> simp_all [BfirPipeline.baseOf]

/-- C9: for every input list of enhanced field definitions,
`convert_enhanced_fields_to_bfir` returns a document whose format descriptor
is the fixed constant EDID / 1.4 / Extended Display Identification Data /
little; in particular the endianness is never derived from the input. -/
theorem claim_fixed_format_descriptor (efs : List BfirPipeline.EnhancedField) :
    (BfirPipeline.convert_enhanced_fields_to_bfir efs).format =
      { name := "EDID", version := "1.4",
        description := "Extended Display Identification Data",
        endianness := "little" } := rfl

/-- C10: every child of a struct-typed field in the document returned by
`convert_enhanced_fields_to_bfir` has type `simple_value` with size
`size_bytes` defaulting to 1, so nested structs, bit-field containers and
enums never occur below the top level. -/
theorem claim_struct_children_flat :
    (∀ efs g cs c, g ∈ (BfirPipeline.convert_enhanced_fields_to_bfir efs).fields →
      g.fields = some cs → c ∈ cs → c.type = "simple_value") ∧
    (∀ f cs, (BfirPipeline.convertField f).fields = some cs →
      cs.map (fun c => c.size) =
        ((BfirPipeline.bsOf f).fields.getD []).map (fun sf => sf.size_bytes.getD 1)) := by
  constructor
  · intro efs g cs c hg hfields hc
    simp only [BfirPipeline.convert_enhanced_fields_to_bfir, List.mem_map] at hg
    obtain ⟨f, _, rfl⟩ := hg
    have hcs := BfirPipeline.convertField_fields f cs hfields
    subst hcs
    simp only [List.mem_map] at hc
    obtain ⟨sf, _, rfl⟩ := hc
    rfl
  · intro f cs h
    have hcs := BfirPipeline.convertField_fields f cs h
    subst hcs
    simp [List.map_map, BfirPipeline.childOf]

/-- Witness for C10 at a concrete struct field whose child declares no size. -/
theorem claim_struct_children_flat_w :
    ({ name := "Magic", type := "simple_value", size := 1, description := "" } :
      BfirPipeline.StructFieldOut).type = "simple_value" :=
  claim_struct_children_flat.1 [Samples.headerField]
    (BfirPipeline.convertField Samples.headerField)
    [{ name := "Magic", type := "simple_value", size := 1, description := "" }]
    { name := "Magic", type := "simple_value", size := 1, description := "" }
    (by simp [BfirPipeline.convert_enhanced_fields_to_bfir]) rfl (by simp)

/-- C8 (failing evaluation): on a struct field with an empty fields list and
on a field with an unknown binary-structure type, the IR builder returns
normally — it emits the empty struct unchanged and substitutes the default
field kind `simple_value` (size 1) instead of aborting with a
MalformedFieldError. -/
theorem claim_malformed_keeps_going :
    BfirPipeline.convert_enhanced_fields_to_bfir
        [Samples.emptyStructField, Samples.unknownTypeField] =
      { format :=
          { name := "EDID"
            version := "1.4"
            description := "Extended Display Identification Data"
            endianness := "little" }
        fields :=
          [{ name := "Chromaticity"
             description := ""
             offset := none
             type := "struct"
             size := none
             bit_fields := none
             enum_values := none
             fields := some [] },
           { name := "Mystery"
             description := ""
             offset := none
             type := "simple_value"
             size := some 1
             bit_fields := none
             enum_values := none
             fields := none }] } := rfl

/-- C3: the Type Mapper sends 1, 2, 4, 8 to u8, u16, u32, u64, every other
positive size to a byte array of exactly that many elements, and errors with
UnsupportedSizeError exactly on non-positive sizes. -/
theorem claim_scalar_type_for :
    HexPat.scalar_type_for 1 = .ok .u8 ∧ HexPat.scalar_type_for 2 = .ok .u16 ∧
    HexPat.scalar_type_for 4 = .ok .u32 ∧ HexPat.scalar_type_for 8 = .ok .u64 ∧
    (∀ n : Int, 0 < n → n ≠ 1 → n ≠ 2 → n ≠ 4 → n ≠ 8 →
      HexPat.scalar_type_for n = .ok (.byteArray n.toNat) ∧ ((n.toNat : Int) = n)) ∧
    (∀ n : Int, HexPat.scalar_type_for n = .error (.unsupportedSize n) ↔ n ≤ 0) := by
  refine ⟨rfl, rfl, rfl, rfl, ?_, ?_⟩
  · intro n hpos h1 h2 h4 h8
    constructor
    · unfold HexPat.scalar_type_for
      rw [if_neg (by omega), if_neg h1, if_neg h2, if_neg h4, if_neg h8]
    · exact Int.toNat_of_nonneg hpos.le
  · intro n
    constructor
    · intro h
      by_contra hn
      unfold HexPat.scalar_type_for at h
      rw [if_neg hn] at h
      split_ifs at h
    · intro h
      unfold HexPat.scalar_type_for
      rw [if_pos h]

/-- Witness for C3 at size 3 (byte-array fallback) and size 0 (error). -/
theorem claim_scalar_type_for_w :
    HexPat.scalar_type_for 3 = .ok (.byteArray 3) ∧
    HexPat.scalar_type_for 0 = .error (.unsupportedSize 0) := by
  refine ⟨?_, (claim_scalar_type_for.2.2.2.2.2 0).mpr (by decide)⟩
  exact (claim_scalar_type_for.2.2.2.2.1 3 (by decide) (by decide) (by decide)
    (by decide) (by decide)).1

/-- C2: BitFields emission fails with BitFieldOverflowError whenever the
declared bit widths alone exceed `sizeBytes * 8`; any successful emission
has widths (padding included) summing to exactly `sizeBytes * 8`; when the
declared widths fall short a padding entry makes up the difference; and the
1-byte container with 3-bit and 2-bit entries gains a third, 3-bit padding
entry. -/
theorem claim_bitfield_padding :
    (∀ n sb es, sb * 8 < HexPat.totalBits es →
      HexPat.padBits n sb es = .error (.bitFieldOverflow n) ∧
      HexPat.bitfieldDeclLines n sb es = .error (.bitFieldOverflow n)) ∧
    (∀ n sb es out, HexPat.padBits n sb es = .ok out →
      (out.map Prod.snd).sum = sb * 8) ∧
    (∀ n sb es, HexPat.totalBits es < sb * 8 →
      HexPat.padBits n sb es = .ok (es.map (fun e => (e.name, e.bits)) ++
        [("padding", sb * 8 - HexPat.totalBits es)])) ∧
    HexPat.padBits "Flags" 1 [⟨"a", 3, ""⟩, ⟨"b", 2, ""⟩] =
      .ok [("a", 3), ("b", 2), ("padding", 3)] := by
  refine ⟨?_, ?_, ?_, rfl⟩
  · intro n sb es h
    have hp : HexPat.padBits n sb es = .error (.bitFieldOverflow n) := by
      unfold HexPat.padBits
      rw [if_pos h]
    refine ⟨hp, ?_⟩
    unfold HexPat.bitfieldDeclLines
    rw [hp]
  · intro n sb es out h
    have hsnd : (es.map (Prod.snd ∘ fun e => (e.name, e.bits))).sum =
        HexPat.totalBits es := rfl
    unfold HexPat.padBits at h
    split_ifs at h with h1 h2
    · simp only [Except.ok.injEq] at h
      subst h
      simp only [List.map_append, List.map_map, List.sum_append, List.map_cons,
        List.map_nil, List.sum_cons, List.sum_nil]
      omega
    · simp only [Except.ok.injEq] at h
      subst h
      simp only [List.map_map]
      omega
  · intro n sb es h
    unfold HexPat.padBits
    rw [if_neg (by omega), if_pos h]

/-- Witness for C2: the emitted widths of scenario B sum to one byte. -/
theorem claim_bitfield_padding_w :
    (([("a", 3), ("b", 2), ("padding", 3)] : List (String × Nat)).map Prod.snd).sum = 1 * 8 :=
  claim_bitfield_padding.2.1 "Flags" 1 [⟨"a", 3, ""⟩, ⟨"b", 2, ""⟩] _
    claim_bitfield_padding.2.2.2

/-! Helper lemmas about ordered emission and layout. -/

theorem HexPat.emitEach_ok {α β : Type} (g : α → Except HexPat.ConvError β) :
    ∀ (l : List α) (out : List β), HexPat.emitEach g l = .ok out →
      out.length = l.length ∧
      ∀ i (h1 : i < l.length) (h2 : i < out.length),
        g (l.get ⟨i, h1⟩) = .ok (out.get ⟨i, h2⟩) := by
  intro l
  induction l with
  | nil =>
    intro out h
    simp only [HexPat.emitEach] at h
    cases h
    exact ⟨rfl, fun i h1 _ => absurd h1 (by simp)⟩
  | cons a rest ih =>
    intro out h
    simp only [HexPat.emitEach] at h
    cases hga : g a with
    | error e => rw [hga] at h; simp at h
    | ok b =>
      rw [hga] at h
      cases hrest : HexPat.emitEach g rest with
      | error e => rw [hrest] at h; simp at h
      | ok bs =>
        rw [hrest] at h
        simp only [Except.ok.injEq] at h
        subst h
        obtain ⟨hlen, hpt⟩ := ih bs hrest
        refine ⟨by simp [hlen], ?_⟩
        intro i h1 h2
        cases i with
        | zero => simpa using hga
        | succ j =>
          have hj1 : j < rest.length := by simpa using h1
          have hj2 : j < bs.length := by simpa using h2
          simpa using hpt j hj1 hj2

theorem HexPat.layoutOffsets_getElem :
    ∀ (l : List HexPat.FieldNode) (off i : Nat), i < l.length →
      (HexPat.layoutOffsets off l)[i]? =
        some (off + ((l.take i).map HexPat.byteSize).sum) := by
  intro l
  induction l with
  | nil => intro off i h; simp at h
  | cons f fs ih =>
    intro off i h
    cases i with
    | zero => simp [HexPat.layoutOffsets]
    | succ j =>
      have hj : j < fs.length := by simpa using h
      simp only [HexPat.layoutOffsets, List.getElem?_cons_succ, List.take_succ_cons,
        List.map_cons, List.sum_cons]
      rw [ih (off + HexPat.byteSize f) j hj]
      congr 1
      omega

/-- C1: the IR builder returns the converted fields in exactly the input
order (one output field per input, same index, never sorted); the converter's
field emission is positional in the same way (the i-th emitted line is the
emission of the i-th field); and for fields laid out sequentially the implied
byte offset of each field equals the sum of `size_bytes` of all preceding
sibling fields. -/
theorem claim_field_order_and_offsets :
    (∀ efs, ((BfirPipeline.convert_enhanced_fields_to_bfir efs).fields).map
        (fun g => g.name) = efs.map BfirPipeline.fieldNameOf) ∧
    (∀ fs out, HexPat.emitEach HexPat.fieldDeclLine fs = .ok out →
      out.length = fs.length ∧
      ∀ i (h1 : i < fs.length) (h2 : i < out.length),
        HexPat.fieldDeclLine (fs.get ⟨i, h1⟩) = .ok (out.get ⟨i, h2⟩)) ∧
    (∀ fs : List HexPat.FieldNode, (∀ f ∈ fs, HexPat.isSimple f) →
      ∀ i, i < fs.length →
        (HexPat.layoutOffsets 0 fs)[i]? =
          some (((fs.take i).map HexPat.byteSize).sum)) := by
  refine ⟨?_, ?_, ?_⟩
  · intro efs
    simp only [BfirPipeline.convert_enhanced_fields_to_bfir, List.map_map]
    exact List.map_congr_left fun f _ => BfirPipeline.convertField_name f
  · intro fs out h
    exact HexPat.emitEach_ok HexPat.fieldDeclLine fs out h
  · intro fs _ i h
    simpa using HexPat.layoutOffsets_getElem fs 0 i h

/-- Witness for C1: in scenario A's two-field layout, the second field's
implied offset is the 4 bytes of the first. -/
theorem claim_field_order_and_offsets_w :
    (HexPat.layoutOffsets 0 Samples.scenarioFields)[1]? =
      some (((Samples.scenarioFields.take 1).map HexPat.byteSize).sum) :=
  claim_field_order_and_offsets.2.2 Samples.scenarioFields
    (by simp [Samples.scenarioFields, HexPat.isSimple]) 1 (by simp [Samples.scenarioFields])

/-! Helper lemmas about the Library/Import Tracker. -/

theorem HexPat.mem_register {st : HexPat.TrackerState} {x ns : String} :
    x ∈ HexPat.register st ns ↔ x ∈ st ∨ x = ns := by
  unfold HexPat.register
  split_ifs with h
  · constructor
    · exact Or.inl
    · rintro (hx | rfl)
      · exact hx
      · exact h
  · simp [List.mem_append]

theorem HexPat.register_of_mem {st : HexPat.TrackerState} {ns : String}
    (h : ns ∈ st) : HexPat.register st ns = st := by
  unfold HexPat.register
  rw [if_pos h]

theorem HexPat.register_nodup {st : HexPat.TrackerState} {ns : String}
    (h : st.Nodup) : (HexPat.register st ns).Nodup := by
  unfold HexPat.register
  split_ifs with hm
  · exact h
  · simp [List.nodup_append, h, hm]

theorem HexPat.mem_registerAll :
    ∀ (l : List String) (st : HexPat.TrackerState) (x : String),
      x ∈ HexPat.registerAll st l ↔ x ∈ st ∨ x ∈ l := by
  intro l
  induction l with
  | nil => simp [HexPat.registerAll]
  | cons a l ih =>
    intro st x
    have hstep : HexPat.registerAll st (a :: l) =
        HexPat.registerAll (HexPat.register st a) l := rfl
    rw [hstep, ih (HexPat.register st a) x, HexPat.mem_register]
    simp only [List.mem_cons]
    tauto

theorem HexPat.registerAll_nodup :
    ∀ (l : List String) (st : HexPat.TrackerState), st.Nodup →
      (HexPat.registerAll st l).Nodup := by
  intro l
  induction l with
  | nil => exact fun st h => h
  | cons a l ih => exact fun st h => ih _ (HexPat.register_nodup h)

theorem HexPat.registerAll_absorb :
    ∀ (l : List String) (st : HexPat.TrackerState), (∀ x ∈ l, x ∈ st) →
      HexPat.registerAll st l = st := by
  intro l
  induction l with
  | nil => exact fun st _ => rfl
  | cons a l ih =>
    intro st h
    have hstep : HexPat.registerAll st (a :: l) =
        HexPat.registerAll (HexPat.register st a) l := rfl
    rw [hstep, HexPat.register_of_mem (h a (by simp))]
    exact ih st fun x hx => h x (by simp [hx])

theorem HexPat.registerAll_idem (st : HexPat.TrackerState) (l : List String) :
    HexPat.registerAll (HexPat.registerAll st l) l = HexPat.registerAll st l :=
  HexPat.registerAll_absorb l _
    (fun x hx => (HexPat.mem_registerAll l st x).mpr (Or.inr hx))

theorem HexPat.registerAll_pairwise (l : List String) :
    (HexPat.registerAll [] l).Pairwise
      (fun a b => l.indexOf a < l.indexOf b) := by
  induction l using List.reverseRecOn with
  | nil => simp [HexPat.registerAll]
  | append_singleton l a ih =>
    have hstep : HexPat.registerAll [] (l ++ [a]) =
        HexPat.register (HexPat.registerAll [] l) a := by
      simp [HexPat.registerAll, List.foldl_append]
    rw [hstep]
    have htrans : (HexPat.registerAll [] l).Pairwise
        (fun x y => (l ++ [a]).indexOf x < (l ++ [a]).indexOf y) := by
      refine List.Pairwise.imp_of_mem ?_ ih
      intro x y hx hy hlt
      have hxl : x ∈ l := by
        rcases (HexPat.mem_registerAll l [] x).mp hx with h | h
        · exact absurd h (by simp)
        · exact h
      have hyl : y ∈ l := by
        rcases (HexPat.mem_registerAll l [] y).mp hy with h | h
        · exact absurd h (by simp)
        · exact h
      rwa [List.indexOf_append_of_mem hxl, List.indexOf_append_of_mem hyl]
    unfold HexPat.register
    split_ifs with hm
    · exact htrans
    · rw [List.pairwise_append]
      refine ⟨htrans, by simp, ?_⟩
      intro x hx y hy
      simp only [List.mem_singleton] at hy
      rw [hy]
      have hxl : x ∈ l := by
        rcases (HexPat.mem_registerAll l [] x).mp hx with h | h
        · exact absurd h (by simp)
        · exact h
      have hal : a ∉ l := fun hal =>
        hm ((HexPat.mem_registerAll l [] a).mpr (Or.inr hal))
      rw [List.indexOf_append_of_mem hxl, List.indexOf_append_of_not_mem hal]
      have hlen : l.indexOf x < l.length := List.indexOf_lt_length.mpr hxl
      simp only [List.indexOf_cons_self]
      omega

theorem HexPat.importLine_injective : Function.Injective HexPat.importLine := by
  intro a b h
  have h2 := congrArg String.data h
  simp only [HexPat.importLine, String.data_append, List.append_assoc] at h2
  exact String.ext (List.append_cancel_right (List.append_cancel_left h2))

theorem HexPat.emitCalls_snd :
    ∀ (cs : List HexPat.CallSpec) (st : HexPat.TrackerState),
      (HexPat.emitCalls st cs).2 =
        HexPat.registerAll st (cs.map (fun c => c.ns)) := by
  intro cs
  induction cs with
  | nil => exact fun st => rfl
  | cons c cs ih =>
    intro st
    have hstep : (HexPat.emitCalls st (c :: cs)).2 =
        (HexPat.emitCalls (HexPat.register st c.ns) cs).2 := rfl
    rw [hstep, ih]
    rfl

theorem HexPat.emitCalls_fst :
    ∀ (cs : List HexPat.CallSpec) (st : HexPat.TrackerState),
      (HexPat.emitCalls st cs).1 =
        cs.map (fun c => (HexPat.generate_function_call [] c).1) := by
  intro cs
  induction cs with
  | nil => exact fun st => rfl
  | cons c cs ih =>
    intro st
    have hstep : (HexPat.emitCalls st (c :: cs)).1 =
        (HexPat.generate_function_call st c).1 ::
          (HexPat.emitCalls (HexPat.register st c.ns) cs).1 := rfl
    rw [hstep, ih]
    rfl

/-- C4: `register` is idempotent; a conversion's tracker state, built from a
fresh tracker through the function-call generator, is deduplicated, keeps
first-seen order (first-occurrence indexes strictly increase along it) and
holds exactly the namespaces of the emitted calls; each such namespace
produces exactly one import line regardless of how many calls used it, and
every import line corresponds to at least one emitted call. -/
theorem claim_import_tracker :
    (∀ st ns, HexPat.register (HexPat.register st ns) ns = HexPat.register st ns) ∧
    (∀ calls : List HexPat.CallSpec,
      ((HexPat.emitCalls [] calls).2).Nodup ∧
      (∀ n, n ∈ (HexPat.emitCalls [] calls).2 ↔ n ∈ calls.map (fun c => c.ns)) ∧
      ((HexPat.emitCalls [] calls).2).Pairwise (fun a b =>
        (calls.map (fun c => c.ns)).indexOf a <
          (calls.map (fun c => c.ns)).indexOf b) ∧
      (∀ n, n ∈ calls.map (fun c => c.ns) →
        (HexPat.flush (HexPat.emitCalls [] calls).2).count
          (HexPat.importLine n) = 1) ∧
      (∀ line, line ∈ HexPat.flush (HexPat.emitCalls [] calls).2 →
        ∃ c, c ∈ calls ∧ line = HexPat.importLine c.ns)) := by
  constructor
  · intro st ns
    apply HexPat.register_of_mem
    rw [HexPat.mem_register]
    right
    rfl
  · intro calls
    rw [HexPat.emitCalls_snd]
    have hnodup : (HexPat.registerAll [] (calls.map (fun c => c.ns))).Nodup :=
      HexPat.registerAll_nodup _ [] (by simp)
    have hmem : ∀ n, n ∈ HexPat.registerAll [] (calls.map (fun c => c.ns)) ↔
        n ∈ calls.map (fun c => c.ns) := by
      intro n
      rw [HexPat.mem_registerAll]
      simp
    refine ⟨hnodup, hmem, HexPat.registerAll_pairwise _, ?_, ?_⟩
    · intro n hn
      unfold HexPat.flush
      exact List.count_eq_one_of_mem (hnodup.map HexPat.importLine_injective)
        (List.mem_map_of_mem _ ((hmem n).mpr hn))
    · intro line hline
      unfold HexPat.flush at hline
      obtain ⟨n, hn, rfl⟩ := List.mem_map.mp hline
      obtain ⟨c, hc, rfl⟩ := List.mem_map.mp ((hmem n).mp hn)
      exact ⟨c, hc, rfl⟩

/-- Witness for C4, end-to-end scenario C: two identical std.math pow calls
still yield exactly one import line for std.math. -/
theorem claim_import_tracker_w :
    (HexPat.flush (HexPat.emitCalls [] [Samples.powCall, Samples.powCall]).2).count
      (HexPat.importLine "std.math") = 1 :=
  (claim_import_tracker.2 [Samples.powCall, Samples.powCall]).2.2.2.1 "std.math"
    (by simp [Samples.powCall])


/-! Helper lemmas about dependency-ordered type declarations. -/

theorem HexPat.topoFrom_append :
    ∀ (A B : List HexPat.Decl) (declared : List String),
      HexPat.topoFrom declared (A ++ B) =
        (HexPat.topoFrom declared A &&
          HexPat.topoFrom (declared ++ A.map HexPat.Decl.name) B) := by
  intro A
  induction A with
  | nil => simp [HexPat.topoFrom]
  | cons d A ih =>
    intro B declared
    simp only [List.cons_append, HexPat.topoFrom, List.append_eq, ih, List.map_cons,
      List.append_assoc, List.singleton_append, List.nil_append, Bool.and_assoc]

theorem HexPat.typeDeclsList_names :
    ∀ (fs : List HexPat.FieldNode) (decls : List HexPat.Decl),
      HexPat.typeDeclsList fs = .ok decls →
      ∀ m ∈ fs.filterMap HexPat.compositeName, m ∈ decls.map HexPat.Decl.name := by
  intro fs
  induction fs using HexPat.typeDeclsList.induct with
  | case1 =>
    intro decls h m hm
    simp at hm
  | case2 name sb d fs ih =>
    intro decls h m hm
    simp only [HexPat.typeDeclsList] at h
    simp only [List.filterMap_cons, HexPat.compositeName] at hm
    exact ih decls h m hm
  | case3 n d gs fs e hsub ihg =>
    intro decls h m hm
    simp only [HexPat.typeDeclsList] at h
    rw [hsub] at h
    simp at h
  | case4 n d gs fs sub hsub e hown ihg =>
    intro decls h m hm
    simp only [HexPat.typeDeclsList] at h
    rw [hsub, hown] at h
    simp at h
  | case5 n d gs fs sub hsub own hown e hrest ihg ihf =>
    intro decls h m hm
    simp only [HexPat.typeDeclsList] at h
    rw [hsub, hown, hrest] at h
    simp at h
  | case6 n d gs fs sub hsub own hown rest hrest ihg ihf =>
    intro decls h m hm
    simp only [HexPat.typeDeclsList] at h
    rw [hsub, hown, hrest] at h
    simp only [Except.ok.injEq] at h
    subst h
    simp only [List.filterMap_cons, HexPat.compositeName] at hm
    simp only [List.map_append, List.map_cons, List.mem_append, List.mem_cons]
    rcases List.mem_cons.mp hm with rfl | hm2
    · exact Or.inr (Or.inl rfl)
    · exact Or.inr (Or.inr (ihf rest hrest m hm2))
  | case7 n d sb es fs e hown =>
    intro decls h m hm
    simp only [HexPat.typeDeclsList] at h
    rw [hown] at h
    simp at h
  | case8 n d sb es fs own hown e hrest ih =>
    intro decls h m hm
    simp only [HexPat.typeDeclsList] at h
    rw [hown, hrest] at h
    simp at h
  | case9 n d sb es fs own hown rest hrest ih =>
    intro decls h m hm
    simp only [HexPat.typeDeclsList] at h
    rw [hown, hrest] at h
    simp only [Except.ok.injEq] at h
    subst h
    simp only [List.filterMap_cons, HexPat.compositeName] at hm
    simp only [List.map_cons, List.mem_cons]
    rcases List.mem_cons.mp hm with rfl | hm2
    · exact Or.inl rfl
    · exact Or.inr (ih rest hrest m hm2)
  | case10 n sb vs fs e hown =>
    intro decls h m hm
    simp only [HexPat.typeDeclsList] at h
    rw [hown] at h
    simp at h
  | case11 n sb vs fs own hown e hrest ih =>
    intro decls h m hm
    simp only [HexPat.typeDeclsList] at h
    rw [hown, hrest] at h
    simp at h
  | case12 n sb vs fs own hown rest hrest ih =>
    intro decls h m hm
    simp only [HexPat.typeDeclsList] at h
    rw [hown, hrest] at h
    simp only [Except.ok.injEq] at h
    subst h
    simp only [List.filterMap_cons, HexPat.compositeName] at hm
    simp only [List.map_cons, List.mem_cons]
    rcases List.mem_cons.mp hm with rfl | hm2
    · exact Or.inl rfl
    · exact Or.inr (ih rest hrest m hm2)

theorem HexPat.typeDeclsList_topoFrom :
    ∀ (fs : List HexPat.FieldNode) (decls : List HexPat.Decl),
      HexPat.typeDeclsList fs = .ok decls →
      ∀ declared : List String, HexPat.topoFrom declared decls = true := by
  intro fs
  induction fs using HexPat.typeDeclsList.induct with
  | case1 =>
    intro decls h declared
    simp only [HexPat.typeDeclsList, Except.ok.injEq] at h
    subst h
    rfl
  | case2 name sb d fs ih =>
    intro decls h declared
    simp only [HexPat.typeDeclsList] at h
    exact ih decls h declared
  | case3 n d gs fs e hsub ihg =>
    intro decls h declared
    simp only [HexPat.typeDeclsList] at h
    rw [hsub] at h
    simp at h
  | case4 n d gs fs sub hsub e hown ihg =>
    intro decls h declared
    simp only [HexPat.typeDeclsList] at h
    rw [hsub, hown] at h
    simp at h
  | case5 n d gs fs sub hsub own hown e hrest ihg ihf =>
    intro decls h declared
    simp only [HexPat.typeDeclsList] at h
    rw [hsub, hown, hrest] at h
    simp at h
  | case6 n d gs fs sub hsub own hown rest hrest ihg ihf =>
    intro decls h declared
    simp only [HexPat.typeDeclsList] at h
    rw [hsub, hown, hrest] at h
    simp only [Except.ok.injEq] at h
    subst h
    rw [HexPat.topoFrom_append]
    simp only [Bool.and_eq_true]
    refine ⟨ihg sub hsub declared, ?_⟩
    simp only [HexPat.topoFrom, Bool.and_eq_true]
    constructor
    · simp only [List.all_eq_true]
      intro r hr
      have hmem := HexPat.typeDeclsList_names gs sub hsub r hr
      simp [List.mem_append, hmem]
    · exact ihf rest hrest _
  | case7 n d sb es fs e hown =>
    intro decls h declared
    simp only [HexPat.typeDeclsList] at h
    rw [hown] at h
    simp at h
  | case8 n d sb es fs own hown e hrest ih =>
    intro decls h declared
    simp only [HexPat.typeDeclsList] at h
    rw [hown, hrest] at h
    simp at h
  | case9 n d sb es fs own hown rest hrest ih =>
    intro decls h declared
    simp only [HexPat.typeDeclsList] at h
    rw [hown, hrest] at h
    simp only [Except.ok.injEq] at h
    subst h
    simp only [HexPat.topoFrom, List.all_nil, Bool.true_and]
    exact ih rest hrest _
  | case10 n sb vs fs e hown =>
    intro decls h declared
    simp only [HexPat.typeDeclsList] at h
    rw [hown] at h
    simp at h
  | case11 n sb vs fs own hown e hrest ih =>
    intro decls h declared
    simp only [HexPat.typeDeclsList] at h
    rw [hown, hrest] at h
    simp at h
  | case12 n sb vs fs own hown rest hrest ih =>
    intro decls h declared
    simp only [HexPat.typeDeclsList] at h
    rw [hown, hrest] at h
    simp only [Except.ok.injEq] at h
    subst h
    simp only [HexPat.topoFrom, List.all_nil, Bool.true_and]
    exact ih rest hrest _

theorem HexPat.rootInstantiation_zero (n : String) :
    HexPat.rootInstantiation n 0 = n ++ " root @ 0x00;" := by
  simp only [HexPat.rootInstantiation]
  rw [String.append_assoc, String.append_assoc]
  rfl

theorem HexPat.convert_ok (st : HexPat.TrackerState) (doc : HexPat.Document)
    (calls : List HexPat.CallSpec) (off : Nat) (decls : List HexPat.Decl)
    (fieldLines : List String)
    (hd : HexPat.typeDeclsList doc.fields = .ok decls)
    (hf : HexPat.emitEach HexPat.fieldDeclLine doc.fields = .ok fieldLines) :
    HexPat.convert st doc calls off =
      .ok (HexPat.pragmaLine doc.format.endianness ::
          (HexPat.flush (HexPat.emitCalls st calls).2 ++ HexPat.linesOf decls ++
            HexPat.rootStructLines doc.format.name fieldLines
              (HexPat.emitCalls st calls).1 ++
            [HexPat.rootInstantiation doc.format.name off]),
        (HexPat.emitCalls st calls).2) := by
  unfold HexPat.convert
  rw [hd, hf]

theorem HexPat.convert_ok_inv (st : HexPat.TrackerState) (doc : HexPat.Document)
    (calls : List HexPat.CallSpec) (off : Nat) (out : List String)
    (st2 : HexPat.TrackerState)
    (h : HexPat.convert st doc calls off = .ok (out, st2)) :
    ∃ decls fieldLines,
      HexPat.typeDeclsList doc.fields = .ok decls ∧
      HexPat.emitEach HexPat.fieldDeclLine doc.fields = .ok fieldLines ∧
      st2 = (HexPat.emitCalls st calls).2 ∧
      out = HexPat.pragmaLine doc.format.endianness ::
        (HexPat.flush (HexPat.emitCalls st calls).2 ++ HexPat.linesOf decls ++
          HexPat.rootStructLines doc.format.name fieldLines
            (HexPat.emitCalls st calls).1 ++
          [HexPat.rootInstantiation doc.format.name off]) := by
  unfold HexPat.convert at h
  cases hdecls : HexPat.typeDeclsList doc.fields with
  | error e => rw [hdecls] at h; simp at h
  | ok decls =>
    rw [hdecls] at h
    cases hfl : HexPat.emitEach HexPat.fieldDeclLine doc.fields with
    | error e => rw [hfl] at h; simp at h
    | ok fieldLines =>
      rw [hfl] at h
      simp only [Except.ok.injEq, Prod.mk.injEq] at h
      exact ⟨decls, fieldLines, rfl, rfl, h.2.symm, h.1.symm⟩

/-- C5: every successful `convert` assembles its output in the fixed order —
the endianness pragma line first, then the flushed import lines, then the
composite type declarations in dependency order (no declaration references a
composite type name that is not declared earlier in the declaration list,
and every composite type of the root's field list is declared there), then
the root struct declaration, and finally the single root instantiation
statement, which places the root at file offset 0x00 when no non-zero root
offset is supplied. -/
theorem claim_assembly_order :
    ∀ st doc calls off out st2,
      HexPat.convert st doc calls off = .ok (out, st2) →
      ∃ decls fieldLines,
        HexPat.typeDeclsList doc.fields = .ok decls ∧
        HexPat.emitEach HexPat.fieldDeclLine doc.fields = .ok fieldLines ∧
        st2 = (HexPat.emitCalls st calls).2 ∧
        out = HexPat.pragmaLine doc.format.endianness ::
          (HexPat.flush st2 ++ HexPat.linesOf decls ++
            HexPat.rootStructLines doc.format.name fieldLines
              (HexPat.emitCalls st calls).1 ++
            [HexPat.rootInstantiation doc.format.name off]) ∧
        HexPat.topoOk decls = true ∧
        (∀ r ∈ doc.fields.filterMap HexPat.compositeName,
          r ∈ decls.map HexPat.Decl.name) ∧
        HexPat.rootInstantiation doc.format.name 0 =
          doc.format.name ++ " root @ 0x00;" := by
  intro st doc calls off out st2 h
  unfold HexPat.convert at h
  cases hdecls : HexPat.typeDeclsList doc.fields with
  | error e => rw [hdecls] at h; simp at h
  | ok decls =>
    rw [hdecls] at h
    cases hfl : HexPat.emitEach HexPat.fieldDeclLine doc.fields with
    | error e => rw [hfl] at h; simp at h
    | ok fieldLines =>
      rw [hfl] at h
      simp only [Except.ok.injEq, Prod.mk.injEq] at h
      obtain ⟨hout, hst⟩ := h
      refine ⟨decls, fieldLines, rfl, rfl, hst.symm, ?_, ?_, ?_, ?_⟩
      · rw [← hout, ← hst]
      · exact HexPat.typeDeclsList_topoFrom doc.fields decls hdecls []
      · exact HexPat.typeDeclsList_names doc.fields decls hdecls
      · exact HexPat.rootInstantiation_zero doc.format.name

/-- Witness for C5 on the nested Header document. -/
theorem claim_assembly_order_w :
    ∃ decls fieldLines,
      HexPat.typeDeclsList Samples.docNested.fields = .ok decls ∧
      HexPat.emitEach HexPat.fieldDeclLine Samples.docNested.fields = .ok fieldLines ∧
      ([] : HexPat.TrackerState) = (HexPat.emitCalls [] []).2 ∧
      Samples.outNested = HexPat.pragmaLine Samples.docNested.format.endianness ::
        (HexPat.flush [] ++ HexPat.linesOf decls ++
          HexPat.rootStructLines Samples.docNested.format.name fieldLines
            (HexPat.emitCalls [] []).1 ++
          [HexPat.rootInstantiation Samples.docNested.format.name 0]) ∧
      HexPat.topoOk decls = true ∧
      (∀ r ∈ Samples.docNested.fields.filterMap HexPat.compositeName,
        r ∈ decls.map HexPat.Decl.name) ∧
      HexPat.rootInstantiation Samples.docNested.format.name 0 =
        Samples.docNested.format.name ++ " root @ 0x00;" :=
  claim_assembly_order [] Samples.docNested [] 0 Samples.outNested [] (by
    have hd : HexPat.typeDeclsList Samples.docNested.fields =
        .ok [⟨"Header", [],
          ["struct Header \x7b", "  u32 Magic; // m",
            "  u8 array[40] Values; // v", "\x7d;"]⟩] := by
      simp only [Samples.docNested, Samples.scenarioFields]
      simp only [HexPat.typeDeclsList]
      rfl
    rw [HexPat.convert_ok [] Samples.docNested [] 0 _ ["Header Header_field;"] hd rfl]
    rfl)

/-- C6: conversion is deterministic — the same input yields the same
equation, and re-running `convert` on the same document, calls and offset
from the tracker state the first run left behind produces byte-identical
output text and the same state (register is idempotent, and the emitted text
does not depend on the incoming tracker state beyond the flushed imports). -/
theorem claim_convert_deterministic :
    ∀ st doc calls off out st2,
      HexPat.convert st doc calls off = .ok (out, st2) →
      HexPat.convert st doc calls off = .ok (out, st2) ∧
      HexPat.convert st2 doc calls off = .ok (out, st2) := by
  intro st doc calls off out st2 h
  refine ⟨h, ?_⟩
  obtain ⟨decls, fieldLines, hdecls, hfl, hst, hout⟩ :=
    HexPat.convert_ok_inv st doc calls off out st2 h
  subst hst
  subst hout
  rw [HexPat.convert_ok ((HexPat.emitCalls st calls).2) doc calls off decls
    fieldLines hdecls hfl]
  have h2 : (HexPat.emitCalls (HexPat.emitCalls st calls).2 calls).2 =
      (HexPat.emitCalls st calls).2 := by
    rw [HexPat.emitCalls_snd, HexPat.emitCalls_snd, HexPat.registerAll_idem]
  have h1 : (HexPat.emitCalls (HexPat.emitCalls st calls).2 calls).1 =
      (HexPat.emitCalls st calls).1 := by
    rw [HexPat.emitCalls_fst, HexPat.emitCalls_fst]
  rw [h1, h2]

/-- Witness for C6: re-running the pow-call conversion from the tracker
state of the first run reproduces its exact output and state. -/
theorem claim_convert_deterministic_w :
    HexPat.convert ["std.math"] Samples.docA [Samples.powCall] 0 =
      .ok (Samples.outA, ["std.math"]) :=
  (claim_convert_deterministic [] Samples.docA [Samples.powCall] 0
    Samples.outA ["std.math"] (by
      have h0 : HexPat.typeDeclsList Samples.docA.fields = .ok [] := by
        simp only [Samples.docA]
        simp only [HexPat.typeDeclsList]
      rw [HexPat.convert_ok [] Samples.docA [Samples.powCall] 0 [] [] h0 rfl]
      rfl)).2

/-- C7 (failing evaluation): with the module-level tracker state carried
across conversions as §9 records of the source, converting document B after
a conversion that registered std.math emits an `import std.math;` line that
none of B's calls require, while a fresh tracker does not — the second
conversion's output depends on earlier conversions. -/
theorem claim_tracker_state_leaks :
    HexPat.convert [] Samples.docA [Samples.powCall] 0 =
      .ok (Samples.outA, ["std.math"]) ∧
    HexPat.convert ["std.math"] Samples.docB [] 0 =
      .ok (Samples.outBStale, ["std.math"]) ∧
    HexPat.convert [] Samples.docB [] 0 = .ok (Samples.outBFresh, []) ∧
    Samples.outBStale ≠ Samples.outBFresh ∧
    "import std.math;" ∈ Samples.outBStale := by
  have hA : HexPat.typeDeclsList Samples.docA.fields = .ok [] := by
    simp only [Samples.docA]
    simp only [HexPat.typeDeclsList]
  have hB : HexPat.typeDeclsList Samples.docB.fields = .ok [] := by
    simp only [Samples.docB]
    simp only [HexPat.typeDeclsList]
  refine ⟨?_, ?_, ?_, ?_, ?_⟩
  · rw [HexPat.convert_ok [] Samples.docA [Samples.powCall] 0 [] [] hA rfl]
    rfl
  · rw [HexPat.convert_ok ["std.math"] Samples.docB [] 0 [] [] hB rfl]
    rfl
  · rw [HexPat.convert_ok [] Samples.docB [] 0 [] [] hB rfl]
    rfl
  · intro h
    exact absurd (congrArg List.length h) (by decide)
  · exact List.mem_cons_of_mem _ (List.mem_cons_self _ _)
